import Mathlib

/-!
Shallow embedding of `rssfilter/__init__.py` (an RSS feed filtering
library) and proofs about its specification claims.

Python values that the program manipulates are modelled by `PVal`;
dictionaries are association lists with Python's insertion-order update
semantics; Python exceptions are modelled with `Except PyErr`.
Regular expressions are modelled as literal patterns, where
`re.search(pat, s)` succeeds exactly when `pat` occurs as a substring
anywhere in `s`.  `copy.deepcopy` is the identity in this pure value
model, since pure values cannot be mutated through aliases.
-/

namespace Rssfilter

/-- Python values appearing in feeds: strings, ints, `datetime.datetime`
(as an integer timestamp), `time.struct_time` (as the integer that
`time.mktime` returns for it), `None`, feedparser's quirky
`FeedParserDict`, a plain `dict`, and lists. -/
inductive PVal where
  | str : String → PVal
  | int : Int → PVal
  | dt : Int → PVal
  | stime : Int → PVal
  | pynone : PVal
  | fpdict : List (String × PVal) → PVal
  | pdict : List (String × PVal) → PVal
  | list : List PVal → PVal

/-- A Python dict body: an association list keyed by strings.  Keys are
unique in every dict the program builds. -/
abbrev Dict := List (String × PVal)

/-- `d[k]` lookup returning the first binding of `k`. -/
def getKey? : Dict → String → Option PVal
  | [], _ => none
  | (k', v) :: rest, k => if k' = k then some v else getKey? rest k

/-- `d[k] = v`: replace the first binding of `k` in place, or append a
new binding at the end (Python's insertion-order semantics). -/
def setKey : Dict → String → PVal → Dict
  | [], k, v => [(k, v)]
  | (k', w) :: rest, k, v =>
      if k' = k then (k, v) :: rest else (k', w) :: setKey rest k v

/-- Remove the first binding of `k` (used by `d.pop(k)`). -/
def delKey : Dict → String → Dict
  | [], _ => []
  | (k', w) :: rest, k => if k' = k then rest else (k', w) :: delKey rest k

/-- The Python exceptions the program can raise. -/
inductive PyErr where
  | keyError : String → PyErr
  | typeError : PyErr
  | feedFetchError : PyErr
  | feedFilterError : String → PyErr
  | assertionError : String → PyErr

/-- Python truthiness for the modelled values. -/
def truthy : PVal → Bool
  | .str s => !(s == "")
  | .int n => !(n == 0)
  | .dt _ => true
  | .stime _ => true
  | .pynone => false
  | .fpdict l => !l.isEmpty
  | .pdict l => !l.isEmpty
  | .list l => !l.isEmpty

/-- `d.pop(k)`: the value and the dict without that binding;
`KeyError` when absent. -/
def popKey (d : Dict) (k : String) : Except PyErr (PVal × Dict) :=
  match getKey? d k with
  | some v => .ok (v, delKey d k)
  | none => .error (.keyError k)

/-- Subscript `v[k]` on a Python value: mapping lookup on either dict
flavour, `TypeError` on anything that is not a mapping. -/
def getItemP (v : PVal) (k : String) : Except PyErr PVal :=
  match v with
  | .fpdict l => match getKey? l k with
      | some w => .ok w
      | none => .error (.keyError k)
  | .pdict l => match getKey? l k with
      | some w => .ok w
      | none => .error (.keyError k)
  | _ => .error .typeError

/-- `dict(v)`: the items of a mapping, `TypeError` otherwise. -/
def toPairs (v : PVal) : Except PyErr Dict :=
  match v with
  | .fpdict l => .ok l
  | .pdict l => .ok l
  | _ => .error .typeError

/-- `isinstance(v, feedparser.FeedParserDict)`. -/
def isFpdict : PVal → Bool
  | .fpdict _ => true
  | _ => false

/-- `dict(v) if isinstance(v, FeedParserDict) else v`: the one-level
coercion applied to nested values by `_cast_feed_to_primitives`. -/
def coerceShallow : PVal → PVal
  | .fpdict l => .pdict l
  | v => v

/-! ### Basic lemmas about dict operations -/

theorem getKey_setKey_same (d : Dict) (k : String) (v : PVal) :
    getKey? (setKey d k v) k = some v := by
  induction d with
  | nil => simp [setKey, getKey?]
  | cons p rest ih =>
      obtain ⟨k', w⟩ := p
      by_cases h : k' = k <;> simp [setKey, getKey?, h, ih]

theorem getKey_setKey_other (d : Dict) {k k' : String} (v : PVal)
    (h : k' ≠ k) : getKey? (setKey d k' v) k = getKey? d k := by
  induction d with
  | nil => simp [setKey, getKey?, h]
  | cons p rest ih =>
      obtain ⟨k₀, w⟩ := p
      by_cases h0 : k₀ = k'
      · subst h0; simp [setKey, getKey?, h]
      · simp only [setKey, if_neg h0]
        by_cases h1 : k₀ = k <;> simp [getKey?, h1, ih]

theorem getKey_delKey_other (d : Dict) {k k' : String}
    (h : k' ≠ k) : getKey? (delKey d k') k = getKey? d k := by
  induction d with
  | nil => simp [delKey, getKey?]
  | cons p rest ih =>
      obtain ⟨k₀, w⟩ := p
      by_cases h0 : k₀ = k'
      · subst h0; simp [delKey, getKey?, h]
      · simp only [delKey, if_neg h0]
        by_cases h1 : k₀ = k <;> simp [getKey?, h1, ih]

theorem setKey_eq_of_getKey {d : Dict} {k : String} {v : PVal}
    (h : getKey? d k = some v) : setKey d k v = d := by
  induction d with
  | nil => simp [getKey?] at h
  | cons p rest ih =>
      obtain ⟨k₀, w⟩ := p
      by_cases h0 : k₀ = k
      · subst h0
        simp [getKey?] at h
        simp [setKey, h]
      · simp [getKey?, h0] at h
        simp [setKey, h0, ih h]

/-! ### The entry normalizer `_cast_feed_to_primitives` -/

/-- Subscript on a dict body, raising `KeyError` when absent. -/
def getKeyE (d : Dict) (k : String) : Except PyErr PVal :=
  match getKey? d k with
  | some v => .ok v
  | none => .error (.keyError k)

/-- Iterating a Python value as a list (`TypeError` otherwise). -/
def asList (v : PVal) : Except PyErr (List PVal) :=
  match v with
  | .list l => .ok l
  | _ => .error .typeError

/-- Sequential effectful map, mirroring a Python `for` loop that stops
at the first raised exception. -/
def mapME (f : PVal → Except PyErr PVal) : List PVal → Except PyErr (List PVal)
  | [] => .ok []
  | x :: xs => do
      let y ← f x
      let ys ← mapME f xs
      pure (y :: ys)

/-- The per-entry step of the normalizer: `i = dict(i)` followed by the
one-level coercion of any `FeedParserDict` values. -/
def castEntry (i : PVal) : Except PyErr PVal := do
  let ip ← toPairs i
  pure (PVal.pdict (ip.map (fun kv => (kv.1, coerceShallow kv.2))))

/-- `_cast_feed_to_primitives(feed)`: converts the top level, the
`feed` metadata mapping and each entry to plain dicts, coercing nested
`FeedParserDict` values one level deep. -/
def _cast_feed_to_primitives (feed : PVal) : Except PyErr PVal := do
  let top ← toPairs feed
  let feedv ← getKeyE top "feed"
  let fp ← toPairs feedv
  let top2 := setKey top "feed" (.pdict (fp.map (fun kv => (kv.1, coerceShallow kv.2))))
  let entriesv ← getKeyE top2 "entries"
  let es ← asList entriesv
  let nuentries ← mapME castEntry es
  pure (.pdict (setKey top2 "entries" (.list nuentries)))

/-- An entry is in normalized shape: a plain dict with no
`FeedParserDict` values. -/
def entryNormalized : PVal → Bool
  | .pdict ep => ep.all (fun kv => !isFpdict kv.2)
  | _ => false

/-- A whole parsed feed is in normalized shape: a plain dict whose
`feed` value is a plain dict with no `FeedParserDict` values and whose
`entries` value is a list of normalized entries. -/
def normalizedFeed : PVal → Bool
  | .pdict top =>
      (match getKey? top "feed" with
       | some (.pdict fp) => fp.all (fun kv => !isFpdict kv.2)
       | _ => false)
      &&
      (match getKey? top "entries" with
       | some (.list es) => es.all entryNormalized
       | _ => false)
  | _ => false

theorem map_coerce_eq_self {l : Dict}
    (h : l.all (fun kv => !isFpdict kv.2) = true) :
    l.map (fun kv => (kv.1, coerceShallow kv.2)) = l := by
  induction l with
  | nil => rfl
  | cons kv rest ih =>
      simp only [List.all_cons, Bool.and_eq_true] at h
      obtain ⟨h1, h2⟩ := h
      have hc : coerceShallow kv.2 = kv.2 := by
        cases hv : kv.2 <;> try rfl
        rw [hv] at h1; simp [isFpdict] at h1
      simp [hc, ih h2]

theorem mapME_castEntry_eq_self {es : List PVal}
    (h : es.all entryNormalized = true) : mapME castEntry es = .ok es := by
  induction es with
  | nil => rfl
  | cons i rest ih =>
      simp only [List.all_cons, Bool.and_eq_true] at h
      obtain ⟨h1, h2⟩ := h
      cases hi : i with
      | pdict ip =>
          rw [hi] at h1
          simp only [entryNormalized] at h1
          simp [mapME, castEntry, toPairs, map_coerce_eq_self h1, ih h2,
            Bind.bind, Except.bind, pure, Except.pure]
      | _ => rw [hi] at h1; simp [entryNormalized] at h1

/-- C7: Normalization is idempotent: applying `_cast_feed_to_primitives`
to a feed structure that is already normalized (all values plain
mappings) yields an equal structure — a no-op with no further
coercion. -/
theorem cast_feed_idempotent (f : PVal) (h : normalizedFeed f = true) :
    _cast_feed_to_primitives f = .ok f := by
  cases f <;> simp only [normalizedFeed, Bool.and_eq_true] at h
  case pdict top =>
    obtain ⟨h1, h2⟩ := h
    rcases hfe : getKey? top "feed" with _ | fv
    · rw [hfe] at h1; exact absurd h1 Bool.false_ne_true
    rw [hfe] at h1
    cases fv
    case pdict fp =>
      rcases hent : getKey? top "entries" with _ | ev
      · rw [hent] at h2; exact absurd h2 Bool.false_ne_true
      rw [hent] at h2
      cases ev
      case list es =>
        have hm : fp.map (fun kv => (kv.1, coerceShallow kv.2)) = fp :=
          map_coerce_eq_self h1
        have hes : mapME castEntry es = .ok es :=
          mapME_castEntry_eq_self h2
        have hset1 : setKey top "feed" (.pdict fp) = top :=
          setKey_eq_of_getKey hfe
        have hset2 : setKey top "entries" (.list es) = top :=
          setKey_eq_of_getKey hent
        simp only [_cast_feed_to_primitives, toPairs, getKeyE, hfe, hent,
          hm, hset1, asList, hes, hset2, Bind.bind, Except.bind,
          pure, Except.pure]
      all_goals exact absurd h2 Bool.false_ne_true
    all_goals exact absurd h1 Bool.false_ne_true
  all_goals exact absurd h Bool.false_ne_true

/-- Witness for C7 at a concrete already-normalized feed. -/
theorem cast_feed_idempotent_witness :
    normalizedFeed (.pdict [("feed", .pdict [("title", .str "T")]),
      ("entries", .list [.pdict [("link", .str "a")]])]) = true ∧
    _cast_feed_to_primitives (.pdict [("feed", .pdict [("title", .str "T")]),
      ("entries", .list [.pdict [("link", .str "a")]])]) =
      .ok (.pdict [("feed", .pdict [("title", .str "T")]),
      ("entries", .list [.pdict [("link", .str "a")]])]) :=
  ⟨by decide, cast_feed_idempotent _ (by decide)⟩

/-! ### `fetch_and_prepare_feed` -/

/-- Using a value as an `int` (the `status` comparison). -/
def asInt (v : PVal) : Except PyErr Int :=
  match v with
  | .int n => .ok n
  | _ => .error .typeError

/-- The per-entry `pubdate` repair in `fetch_and_prepare_feed`: when
`i.get('pubdate', None)` is not a `datetime`, derive it from
`published_parsed` via `time.mktime` and
`datetime.datetime.fromtimestamp` (modelled as `stime n ↦ dt n`). -/
def fixPubdate (i : PVal) : Except PyErr PVal := do
  let ip ← toPairs i
  match getKey? ip "pubdate" with
  | some (.dt _) => pure i
  | _ =>
      match getKey? ip "published_parsed" with
      | none => .error (.keyError "published_parsed")
      | some (.stime n) => pure (.pdict (setKey ip "pubdate" (.dt n)))
      | some _ => .error .typeError

/-- `fetch_and_prepare_feed`, with the already-parsed feedparser result
as input (the HTTP fetch and parse are the external collaborator):
validates feed metadata truthiness and the 200–299 status range,
normalizes with `_cast_feed_to_primitives`, and repairs `pubdate` on
every entry. -/
def fetch_and_prepare_feed (parsed : PVal) : Except PyErr PVal := do
  let feedv ← getItemP parsed "feed"
  if !truthy feedv then .error .feedFetchError
  else do
    let statusv ← getItemP parsed "status"
    let status ← asInt statusv
    if ¬(200 ≤ status ∧ status < 300) then .error .feedFetchError
    else do
      let f ← _cast_feed_to_primitives parsed
      let top ← toPairs f
      let entriesv ← getKeyE top "entries"
      let es ← asList entriesv
      let es2 ← mapME fixPubdate es
      pure (.pdict (setKey top "entries" (.list es2)))

/-- Whether an error is the `FeedFetchError` exception. -/
def isFetchErr : PyErr → Bool
  | .feedFetchError => true
  | _ => false

/-- An entry carries a `datetime`-valued `pubdate`. -/
def entryHasDtPubdate : PVal → Bool
  | .pdict ep =>
      match getKey? ep "pubdate" with
      | some (.dt _) => true
      | _ => false
  | _ => false

/-- Every entry of the prepared feed carries a `datetime` `pubdate`. -/
def pubdatesOk : PVal → Bool
  | .pdict top =>
      match getKey? top "entries" with
      | some (.list es) => es.all entryHasDtPubdate
      | _ => false
  | _ => false

/-! ### Inversion helpers for the `Except` monad -/

theorem bind_error {α β : Type} {m : Except PyErr α} {g : α → Except PyErr β}
    {e : PyErr} (h : (m >>= g) = .error e) :
    m = .error e ∨ ∃ a, m = .ok a ∧ g a = .error e := by
  cases m with
  | error e' =>
      simp only [Bind.bind, Except.bind] at h
      injection h with h
      subst h
      exact Or.inl rfl
  | ok a =>
      simp only [Bind.bind, Except.bind] at h
      exact Or.inr ⟨a, rfl, h⟩

theorem bind_ok {α β : Type} {m : Except PyErr α} {g : α → Except PyErr β}
    {b : β} (h : (m >>= g) = .ok b) : ∃ a, m = .ok a ∧ g a = .ok b := by
  cases m with
  | error e' => simp only [Bind.bind, Except.bind] at h; cases h
  | ok a =>
      simp only [Bind.bind, Except.bind] at h
      exact ⟨a, rfl, h⟩

/-! ### Error classification: the normalization and pubdate-repair
steps only ever raise `KeyError`/`TypeError`, never `FeedFetchError`. -/

theorem toPairs_error {v : PVal} {e : PyErr} (h : toPairs v = .error e) :
    isFetchErr e = false := by
  cases v <;> simp only [toPairs] at h <;> cases h <;> rfl

theorem getKeyE_error {d : Dict} {k : String} {e : PyErr}
    (h : getKeyE d k = .error e) : isFetchErr e = false := by
  unfold getKeyE at h
  cases hg : getKey? d k <;> rw [hg] at h
  · cases h; rfl
  · cases h

theorem asList_error {v : PVal} {e : PyErr} (h : asList v = .error e) :
    isFetchErr e = false := by
  cases v <;> simp only [asList] at h <;> cases h <;> rfl

theorem castEntry_error {i : PVal} {e : PyErr} (h : castEntry i = .error e) :
    isFetchErr e = false := by
  unfold castEntry at h
  rcases bind_error h with h' | ⟨ip, _, h'⟩
  · exact toPairs_error h'
  · cases h'

theorem mapME_error {g : PVal → Except PyErr PVal}
    (hg : ∀ i e, g i = .error e → isFetchErr e = false) :
    ∀ {xs : List PVal} {e : PyErr}, mapME g xs = .error e →
      isFetchErr e = false := by
  intro xs
  induction xs with
  | nil => intro e h; cases h
  | cons x rest ih =>
      intro e h
      unfold mapME at h
      rcases bind_error h with h' | ⟨y, _, h'⟩
      · exact hg x e h'
      rcases bind_error h' with h'' | ⟨ys, _, h''⟩
      · exact ih h''
      · cases h''

theorem cast_error {x : PVal} {e : PyErr}
    (h : _cast_feed_to_primitives x = .error e) : isFetchErr e = false := by
  unfold _cast_feed_to_primitives at h
  rcases bind_error h with h1 | ⟨top, _, h1⟩
  · exact toPairs_error h1
  rcases bind_error h1 with h2 | ⟨feedv, _, h2⟩
  · exact getKeyE_error h2
  rcases bind_error h2 with h3 | ⟨fp, _, h3⟩
  · exact toPairs_error h3
  rcases bind_error h3 with h4 | ⟨entriesv, _, h4⟩
  · exact getKeyE_error h4
  rcases bind_error h4 with h5 | ⟨es, _, h5⟩
  · exact asList_error h5
  rcases bind_error h5 with h6 | ⟨nuentries, _, h6⟩
  · exact mapME_error (fun i e h => castEntry_error h) h6
  · cases h6

theorem pubdateBranch_error {ip : Dict} {e : PyErr}
    (h1 : (match getKey? ip "published_parsed" with
      | none => (Except.error (PyErr.keyError "published_parsed") :
          Except PyErr PVal)
      | some (.stime n) => pure (.pdict (setKey ip "pubdate" (.dt n)))
      | some _ => .error .typeError) = .error e) :
    isFetchErr e = false := by
  rcases hpp : getKey? ip "published_parsed" with _ | w <;> rw [hpp] at h1
  · cases h1; rfl
  · cases w <;> simp only [pure, Except.pure] at h1 <;> cases h1 <;> rfl

theorem fixPubdate_error {i : PVal} {e : PyErr}
    (h : fixPubdate i = .error e) : isFetchErr e = false := by
  unfold fixPubdate at h
  rcases bind_error h with h1 | ⟨ip, _, h1⟩
  · exact toPairs_error h1
  rcases hp : getKey? ip "pubdate" with _ | v <;> rw [hp] at h1
  · exact pubdateBranch_error h1
  · cases v
    case dt => simp only [pure, Except.pure] at h1; cases h1
    all_goals exact pubdateBranch_error h1

/-! ### Shape of successful normalization and pubdate repair -/

theorem mapME_ok_mem {g : PVal → Except PyErr PVal} :
    ∀ {xs ys : List PVal}, mapME g xs = .ok ys →
      ∀ y ∈ ys, ∃ x ∈ xs, g x = .ok y := by
  intro xs
  induction xs with
  | nil =>
      intro ys h y hy
      cases h
      cases hy
  | cons x rest ih =>
      intro ys h y hy
      unfold mapME at h
      obtain ⟨y0, hy0, h1⟩ := bind_ok h
      obtain ⟨ys0, hys0, h2⟩ := bind_ok h1
      simp only [pure, Except.pure] at h2
      injection h2 with h2
      subst h2
      rcases List.mem_cons.mp hy with h | h
      · exact ⟨x, List.mem_cons_self .., h ▸ hy0⟩
      · obtain ⟨x', hx', hgx'⟩ := ih hys0 y h
        exact ⟨x', List.mem_cons_of_mem _ hx', hgx'⟩

theorem castEntry_ok_shape {i y : PVal} (h : castEntry i = .ok y) :
    ∃ ip, y = .pdict ip := by
  unfold castEntry at h
  obtain ⟨ip, _, h1⟩ := bind_ok h
  simp only [pure, Except.pure] at h1
  injection h1 with h1
  exact ⟨_, h1.symm⟩

theorem cast_ok_shape {x f : PVal} (h : _cast_feed_to_primitives x = .ok f) :
    ∃ top es, f = .pdict top ∧ getKey? top "entries" = some (.list es) ∧
      ∀ i ∈ es, ∃ ip, i = .pdict ip := by
  unfold _cast_feed_to_primitives at h
  obtain ⟨top, _, h1⟩ := bind_ok h
  obtain ⟨feedv, _, h2⟩ := bind_ok h1
  obtain ⟨fp, _, h3⟩ := bind_ok h2
  obtain ⟨entriesv, _, h4⟩ := bind_ok h3
  obtain ⟨es, _, h5⟩ := bind_ok h4
  obtain ⟨nuentries, hnu, h6⟩ := bind_ok h5
  simp only [pure, Except.pure] at h6
  injection h6 with h6
  subst h6
  refine ⟨_, nuentries, rfl, getKey_setKey_same .., ?_⟩
  intro i hi
  obtain ⟨x', _, hx'⟩ := mapME_ok_mem hnu i hi
  exact castEntry_ok_shape hx'

theorem pubdateBranch_ok {ip : Dict} {y : PVal}
    (h1 : (match getKey? ip "published_parsed" with
      | none => (Except.error (PyErr.keyError "published_parsed") :
          Except PyErr PVal)
      | some (.stime n) => pure (.pdict (setKey ip "pubdate" (.dt n)))
      | some _ => .error .typeError) = .ok y) :
    entryHasDtPubdate y = true := by
  rcases hpp : getKey? ip "published_parsed" with _ | w <;> rw [hpp] at h1
  · cases h1
  · cases w <;> try cases h1
    all_goals simp [entryHasDtPubdate, getKey_setKey_same]

theorem fixPubdate_ok_dt {i y : PVal} {ip : Dict} (hi : i = .pdict ip)
    (h : fixPubdate i = .ok y) : entryHasDtPubdate y = true := by
  subst hi
  unfold fixPubdate at h
  obtain ⟨ip', hip', h1⟩ := bind_ok h
  simp only [toPairs] at hip'
  injection hip' with hip'
  subst hip'
  rcases hp : getKey? ip "pubdate" with _ | v <;> rw [hp] at h1
  · exact pubdateBranch_ok h1
  · cases v
    case dt n =>
      simp only [pure, Except.pure] at h1
      injection h1 with h1
      subst h1
      simp [entryHasDtPubdate, hp]
    all_goals exact pubdateBranch_ok h1

theorem fetch_ok_pubdates {parsed f : PVal}
    (h : fetch_and_prepare_feed parsed = .ok f) : pubdatesOk f = true := by
  unfold fetch_and_prepare_feed at h
  obtain ⟨feedv, hfv, h1⟩ := bind_ok h
  split at h1
  · cases h1
  obtain ⟨statusv, hsv, h2⟩ := bind_ok h1
  obtain ⟨status, hst, h3⟩ := bind_ok h2
  split at h3
  · cases h3
  obtain ⟨fc, hc, h4⟩ := bind_ok h3
  obtain ⟨top, htp, h5⟩ := bind_ok h4
  obtain ⟨entriesv, hev, h6⟩ := bind_ok h5
  obtain ⟨es, hes, h7⟩ := bind_ok h6
  obtain ⟨es2, hes2, h8⟩ := bind_ok h7
  simp only [pure, Except.pure] at h8
  injection h8 with h8
  subst h8
  obtain ⟨topc, esc, hfc, hgc, hallc⟩ := cast_ok_shape hc
  subst hfc
  simp only [toPairs] at htp
  injection htp with htp
  subst htp
  unfold getKeyE at hev
  rw [hgc] at hev
  injection hev with hev
  subst hev
  simp only [asList] at hes
  injection hes with hes
  subst hes
  simp only [pubdatesOk, getKey_setKey_same, List.all_eq_true]
  intro y hy
  obtain ⟨x, hx, hfx⟩ := mapME_ok_mem hes2 y hy
  obtain ⟨ip, hip⟩ := hallc x hx
  exact fixPubdate_ok_dt hip hfx

/-- C4: `fetch_and_prepare_feed` raises `FeedFetchError` if and only if
the parsed result has falsy feed-level metadata or a status outside
200–299 (no entry-level validation raises it), and on success every
returned entry has a `datetime`-valued `pubdate`. -/
theorem fetch_and_prepare_error_iff (parsed feedv : PVal) (n : Int)
    (hF : getItemP parsed "feed" = .ok feedv)
    (hS : getItemP parsed "status" = .ok (.int n)) :
    (fetch_and_prepare_feed parsed = .error .feedFetchError ↔
      (truthy feedv = false ∨ n < 200 ∨ 300 ≤ n))
    ∧ (∀ f, fetch_and_prepare_feed parsed = .ok f → pubdatesOk f = true) := by
  refine ⟨⟨?_, ?_⟩, fun f h => fetch_ok_pubdates h⟩
  · intro h
    unfold fetch_and_prepare_feed at h
    rcases bind_error h with h1 | ⟨feedv', hfv, h1⟩
    · rw [hF] at h1; cases h1
    rw [hF] at hfv
    injection hfv with hfv
    subst hfv
    by_cases ht : truthy feedv
    · rw [ht] at h1
      simp only [Bool.not_true, Bool.false_eq_true, if_false] at h1
      rcases bind_error h1 with h2 | ⟨statusv, hsv, h2⟩
      · rw [hS] at h2; cases h2
      rw [hS] at hsv
      injection hsv with hsv
      subst hsv
      rcases bind_error h2 with h3 | ⟨status, hst, h3⟩
      · simp only [asInt] at h3; cases h3
      simp only [asInt] at hst
      injection hst with hst
      subst hst
      by_cases hr : 200 ≤ n ∧ n < 300
      · rw [if_neg (by exact fun hc => hc hr)] at h3
        exfalso
        rcases bind_error h3 with h4 | ⟨fc, _, h4⟩
        · simpa [isFetchErr] using cast_error h4
        rcases bind_error h4 with h5 | ⟨top, _, h5⟩
        · simpa [isFetchErr] using toPairs_error h5
        rcases bind_error h5 with h6 | ⟨ev, _, h6⟩
        · simpa [isFetchErr] using getKeyE_error h6
        rcases bind_error h6 with h7 | ⟨es, _, h7⟩
        · simpa [isFetchErr] using asList_error h7
        rcases bind_error h7 with h8 | ⟨es2, _, h8⟩
        · simpa [isFetchErr] using
            mapME_error (fun i e hh => fixPubdate_error hh) h8
        · exact Except.noConfusion h8
      · right; omega
    · left; simpa using ht
  · intro h
    by_cases ht : truthy feedv
    · have hn : n < 200 ∨ 300 ≤ n := by
        rcases h with h | h
        · rw [ht] at h; cases h
        · exact h
      unfold fetch_and_prepare_feed
      rw [hF]
      simp only [Bind.bind, Except.bind, ht, Bool.not_true,
        Bool.false_eq_true, if_false]
      rw [hS]
      simp only [asInt]
      rw [if_pos (by omega)]
    · unfold fetch_and_prepare_feed
      rw [hF]
      simp only [Bind.bind, Except.bind,
        Bool.eq_false_iff.mp (by simpa using ht), Bool.not_false, if_true]

/-- Witness for C4 at a concrete parsed feed with status 200. -/
theorem fetch_and_prepare_error_iff_witness :
    (fetch_and_prepare_feed (.fpdict [("feed", .fpdict [("title", .str "T")]),
        ("status", .int 200),
        ("entries", .list [.fpdict [("published_parsed", .stime 5)]])]) =
        .error .feedFetchError ↔
      (truthy (.fpdict [("title", .str "T")]) = false ∨
        (200 : Int) < 200 ∨ 300 ≤ (200 : Int)))
    ∧ (∀ f, fetch_and_prepare_feed
        (.fpdict [("feed", .fpdict [("title", .str "T")]),
          ("status", .int 200),
          ("entries", .list [.fpdict [("published_parsed", .stime 5)]])]) =
        .ok f → pubdatesOk f = true) :=
  fetch_and_prepare_error_iff _ _ 200 rfl rfl

/-! ### The filter layer

Filters operate on normalized feeds, which we represent structurally: a
feed-level metadata dict plus an ordered list of entry dicts.  A
`Filter` is a function from `Feed` to `Feed` that may raise (missing
key lookups propagate). -/

structure Feed where
  meta : Dict
  entries : List Dict

abbrev Filter := Feed → Except PyErr Feed

/-- Using a value as a `str` (`TypeError` otherwise). -/
def asStr (v : PVal) : Except PyErr String :=
  match v with
  | .str s => .ok s
  | _ => .error .typeError

/-- `pat` is a leading segment of `s`. -/
def leadSeg : List Char → List Char → Bool
  | [], _ => true
  | _ :: _, [] => false
  | a :: as, b :: bs => a == b && leadSeg as bs

/-- `pat` occurs somewhere in `s`. -/
def occursIn (pat : List Char) : List Char → Bool
  | [] => leadSeg pat []
  | c :: rest => leadSeg pat (c :: rest) || occursIn pat rest

/-- `re.compile(pat).search(s)` for a literal pattern `pat`: true
exactly when `pat` occurs as a substring anywhere in `s` (search
semantics, not full match). -/
def reSearch (pat : String) (s : String) : Bool :=
  occursIn pat.toList s.toList

/-- The loop body of `entry_field_re_filter`'s returned filter: keep
the entries where the compiled pattern's search succeeds on the string
at `key`, raising `KeyError` on entries missing `key` and `TypeError`
on non-string values. -/
def matchEntries (search : String → Bool) (key : String) :
    List Dict → Except PyErr (List Dict)
  | [] => .ok []
  | i :: rest => do
      let v ← getKeyE i key
      let s ← asStr v
      let rest2 ← matchEntries search key rest
      if search s then pure (i :: rest2) else pure rest2

/-- `entry_field_re_filter(re_pattern, key)`: the compiled pattern is
modelled as its search function `String → Bool`. -/
def entry_field_re_filter (search : String → Bool) (key : String) : Filter :=
  fun feed => do
    let nufeed ← matchEntries search key feed.entries
    pure { feed with entries := nufeed }

/-- `in_url_filter(re_pattern)` for a literal string pattern. -/
def in_url_filter (pat : String) : Filter :=
  entry_field_re_filter (reSearch pat) "link"

/-- `in_title_filter(re_pattern)` for a literal string pattern. -/
def in_title_filter (pat : String) : Filter :=
  entry_field_re_filter (reSearch pat) "title"

/-- `AND_filter(filter1, filter2)`: `lambda F: filter1(filter2(F))`. -/
def AND_filter (filter1 filter2 : Filter) : Filter :=
  fun F => filter2 F >>= filter1

/-- `copy.deepcopy` is the identity on pure values. -/
def deepcopy (F : Feed) : Feed := F

/-- `i['link']` as the `str` used for set membership in `seen_urls`. -/
def getLinkStr (i : Dict) : Except PyErr String := do
  asStr (← getKeyE i "link")

/-- `i['pubdate']` as the `datetime` sort key (`dt` timestamp). -/
def getPubdateInt (i : Dict) : Except PyErr Int :=
  match getKey? i "pubdate" with
  | some (.dt n) => .ok n
  | some _ => .error .typeError
  | none => .error (.keyError "pubdate")

/-- The deduplication loop of `OR_filter`: walk the concatenated
entries, skipping any whose `link` is already in `seen_urls`; the set
`seen_urls` is modelled as a duplicate-free list. -/
def dedupLoop : List Dict → List Dict × List String →
    Except PyErr (List Dict × List String)
  | [], st => .ok st
  | i :: rest, (acc, seen) => do
      let l ← getLinkStr i
      if l ∈ seen then dedupLoop rest (acc, seen)
      else dedupLoop rest (acc ++ [i], l :: seen)

/-- Stable insertion used to model Python's stable `list.sort`: a new
element goes after all existing elements with key ≤ its own. -/
def stableInsert (p : Int × Dict) : List (Int × Dict) → List (Int × Dict)
  | [] => [p]
  | q :: rest => if p.1 < q.1 then p :: q :: rest else q :: stableInsert p rest

/-- `entries.sort(key=...)` on already-decorated entries. -/
def sortKeyed (l : List (Int × Dict)) : List (Int × Dict) :=
  l.foldl (fun acc p => stableInsert p acc) []

/-- Decorating each entry with its `pubdate` sort key, in list order. -/
def keyEntries : List Dict → Except PyErr (List (Int × Dict))
  | [] => .ok []
  | i :: rest => do
      let n ← getPubdateInt i
      let rest2 ← keyEntries rest
      pure ((n, i) :: rest2)

/-- `OR_filter(filter1, filter2)`: evaluate `filter1` on a deep copy
and `filter2` on the original, concatenate the surviving entries
(filter1's first), deduplicate by `link`, sort ascending by `pubdate`,
assert the dedup/seen counts agree, and write the entries back onto
the original feed. -/
def OR_filter (filter1 filter2 : Filter) : Filter := fun F => do
  let filtered1 ← filter1 (deepcopy F)
  let filtered2 ← filter2 F
  let st ← dedupLoop (filtered1.entries ++ filtered2.entries) ([], [])
  let keyed ← keyEntries st.1
  if (sortKeyed keyed).length = st.2.length then
    pure { F with entries := (sortKeyed keyed).map (fun p => p.2) }
  else
    .error (.assertionError "Error: Counted urls but have fewer unique entries!")

/-! ### The feed transform pipeline `filter_feed` and the builder
`builtin_main` -/

/-- Truthiness of `d.get(k, None)`. -/
def truthyOpt : Option PVal → Bool
  | some v => truthy v
  | none => false

/-- What is handed to the serialization collaborator
(`feedgenerator.Rss201rev2Feed` plus `add_item` calls): the three
required positional fields, the remaining feed metadata passed as
keyword arguments, and the per-entry dicts. -/
structure RssOutput where
  title : PVal
  link : PVal
  description : PVal
  extra : Dict
  items : List Dict

/-- The feed-level `description` backfill in `filter_feed`: prefer
`title`, else `link`, else the literal "Unknown title"; both lookups
are subscripts that raise `KeyError` when missing. -/
def backfillDescription (meta : Dict) : Except PyErr Dict := do
  let t ← getKeyE meta "title"
  if truthy t then pure (setKey meta "description" t)
  else do
    let l ← getKeyE meta "link"
    if truthy l then pure (setKey meta "description" l)
    else pure (setKey meta "description" (.str "Unknown title"))

/-- The per-entry step in `filter_feed`: entries lacking a
`description` copy one from `summary` when present. -/
def entryDescriptionFix (i : Dict) : Dict :=
  if (getKey? i "description").isSome then i
  else match getKey? i "summary" with
    | some s => setKey i "description" s
    | none => i

/-- `filter_feed(feed_url, transform_func)` with the fetch-and-prepare
result as input (the network fetch is the external boundary): apply
the transform, backfill the feed `description`, pop the three required
serializer fields, repair entry descriptions, and hand everything to
the serializer. -/
def filter_feed (fetched : Except PyErr Feed) (transform_func : Filter) :
    Except PyErr RssOutput := do
  let f0 ← fetched
  let f ← transform_func f0
  let meta ← (if truthyOpt (getKey? f.meta "description") then pure f.meta
              else backfillDescription f.meta)
  let p1 ← popKey meta "title"
  let p2 ← popKey p1.2 "link"
  let p3 ← popKey p2.2 "description"
  pure ⟨p1.1, p2.1, p3.1, p3.2, f.entries.map entryDescriptionFix⟩

/-- `builtin_main(feed, url_filters, title_filters, operation)`: builds
one filter per pattern, validates the operation name and the filter
count, composes and runs `filter_feed`. -/
def builtin_main (fetched : Except PyErr Feed)
    (url_filters title_filters : List String) (operation : String) :
    Except PyErr RssOutput :=
  if operation ≠ "OR" ∧ operation ≠ "AND" then
    .error (.feedFilterError "Operation can only be AND or OR")
  else match title_filters.map in_title_filter ++
      url_filters.map in_url_filter with
    | [] => .error (.feedFilterError "No filters provided!")
    | [f] => filter_feed fetched f
    | [f1, f2] =>
        if operation = "OR" then filter_feed fetched (OR_filter f1 f2)
        else filter_feed fetched (AND_filter f1 f2)
    | _ => .error
        (.feedFilterError "Too many filters given; use Regex to re-use some?")

/-! ### C5: the predicate filter keeps exactly the matching entries -/

/-- The entry has a string value at `key`. -/
def entryHasStrAt (key : String) (i : Dict) : Bool :=
  match getKey? i key with
  | some (.str _) => true
  | _ => false

/-- The search succeeds on the entry's string value at `key`. -/
def entryMatchesAt (search : String → Bool) (key : String) (i : Dict) : Bool :=
  match getKey? i key with
  | some (.str s) => search s
  | _ => false

theorem matchEntries_eq_filter {search : String → Bool} {key : String} :
    ∀ {es : List Dict}, es.all (entryHasStrAt key) = true →
      matchEntries search key es = .ok (es.filter (entryMatchesAt search key)) := by
  intro es
  induction es with
  | nil => intro _; rfl
  | cons i rest ih =>
      intro h
      simp only [List.all_cons, Bool.and_eq_true] at h
      obtain ⟨h1, h2⟩ := h
      unfold entryHasStrAt at h1
      rcases hk : getKey? i key with _ | v <;> rw [hk] at h1
      · cases h1
      cases v <;> try (exact absurd h1 Bool.false_ne_true)
      case str s =>
        unfold matchEntries
        simp only [getKeyE, hk, asStr, Bind.bind, Except.bind, ih h2]
        by_cases hm : search s
        · simp [List.filter_cons, entryMatchesAt, hk, hm, pure, Except.pure]
        · simp [List.filter_cons, entryMatchesAt, hk, hm, pure, Except.pure]

theorem matchEntries_missing_key {search : String → Bool} {key : String} :
    ∀ {es : List Dict},
      es.all (fun i => entryHasStrAt key i || (getKey? i key).isNone) = true →
      es.any (fun i => (getKey? i key).isNone) = true →
      matchEntries search key es = .error (.keyError key) := by
  intro es
  induction es with
  | nil => intro _ h; cases h
  | cons i rest ih =>
      intro hall hany
      simp only [List.all_cons, Bool.and_eq_true] at hall
      obtain ⟨h1, h2⟩ := hall
      rcases hk : getKey? i key with _ | v
      · unfold matchEntries
        simp [getKeyE, hk, Bind.bind, Except.bind]
      · rw [hk] at h1
        simp only [Option.isNone_some, Bool.or_false] at h1
        unfold entryHasStrAt at h1
        rw [hk] at h1
        cases v <;> try (exact absurd h1 Bool.false_ne_true)
        case str s =>
          have hrest : rest.any (fun i => (getKey? i key).isNone) = true := by
            simp only [List.any_cons, Bool.or_eq_true] at hany
            rcases hany with h | h
            · rw [hk] at h; cases h
            · exact h
          unfold matchEntries
          simp [getKeyE, hk, asStr, Bind.bind, Except.bind, ih h2 hrest]

/-- C5: for every (literal) pattern and key, the filter returned by
`entry_field_re_filter` keeps exactly those entries whose string value
at `key` contains a match of the pattern anywhere (substring-search
semantics), preserving their relative order; and when an entry lacks
the key entirely, a generic `KeyError` propagates out of the filter
instead of the entry being treated as non-matching. -/
theorem entry_field_filter_spec (pat key : String) (feed : Feed) :
    (feed.entries.all (entryHasStrAt key) = true →
      entry_field_re_filter (reSearch pat) key feed =
        .ok ⟨feed.meta, feed.entries.filter (entryMatchesAt (reSearch pat) key)⟩)
    ∧ (feed.entries.all
        (fun i => entryHasStrAt key i || (getKey? i key).isNone) = true →
      feed.entries.any (fun i => (getKey? i key).isNone) = true →
      entry_field_re_filter (reSearch pat) key feed =
        .error (.keyError key)) := by
  constructor
  · intro h
    unfold entry_field_re_filter
    simp [matchEntries_eq_filter h, Bind.bind, Except.bind, pure, Except.pure]
  · intro hall hany
    unfold entry_field_re_filter
    simp [matchEntries_missing_key hall hany, Bind.bind, Except.bind]

/-- Witness for C5 on a two-entry feed where only one title matches
the pattern "Go". -/
theorem entry_field_filter_spec_witness :
    entry_field_re_filter (reSearch "Go") "title"
      ⟨[("title", .str "F")],
        [[("title", .str "Go release"), ("link", .str "a")],
         [("title", .str "Python news"), ("link", .str "b")]]⟩ =
      .ok ⟨[("title", .str "F")],
        ([[("title", .str "Go release"), ("link", .str "a")],
          [("title", .str "Python news"), ("link", .str "b")]] :
          List Dict).filter (entryMatchesAt (reSearch "Go") "title")⟩ :=
  (entry_field_filter_spec "Go" "title" _).1 (by decide)

/-! ### C6: AND composition and idempotence -/

theorem matchEntries_idem {search : String → Bool} {key : String} :
    ∀ {es r : List Dict}, matchEntries search key es = .ok r →
      matchEntries search key r = .ok r := by
  intro es
  induction es with
  | nil =>
      intro r h
      injection h with h
      subst h
      rfl
  | cons i rest ih =>
      intro r h
      unfold matchEntries at h
      obtain ⟨v, hv, h1⟩ := bind_ok h
      obtain ⟨s, hs, h2⟩ := bind_ok h1
      obtain ⟨rest2, hrest2, h3⟩ := bind_ok h2
      by_cases hm : search s
      · rw [if_pos hm] at h3
        simp only [pure, Except.pure] at h3
        injection h3 with h3
        subst h3
        unfold matchEntries
        simp [hv, hs, Bind.bind, Except.bind, ih hrest2, if_pos hm,
          pure, Except.pure]
      · rw [if_neg hm] at h3
        simp only [pure, Except.pure] at h3
        injection h3 with h3
        subst h3
        exact ih hrest2

/-- The number of entries a filter run leaves (0 for an error);
distinguishes `AND_filter (f, f)` from `f` for a non-idempotent `f`. -/
def entryCount : Except PyErr Feed → Nat
  | .ok f => f.entries.length
  | .error _ => 0

/-- C6 counterexample: for the (pure) filter that drops the first
entry, `AND_filter(f, f)` differs from `f` on a two-entry feed, so the
claimed identity does not hold for every Filter. -/
theorem and_filter_idem_counterexample :
    AND_filter ((fun F => .ok ⟨F.meta, F.entries.drop 1⟩) : Filter)
        ((fun F => .ok ⟨F.meta, F.entries.drop 1⟩) : Filter)
        ⟨[], [[("link", .str "a")], [("link", .str "b")]]⟩ ≠
      ((fun F => .ok ⟨F.meta, F.entries.drop 1⟩) : Filter)
        ⟨[], [[("link", .str "a")], [("link", .str "b")]]⟩ := by
  intro h
  exact absurd (congrArg entryCount h) (by decide)

/-- C6 amended: `AND_filter(f1, f2)(F)` is `filter2` followed by
`filter1` (right-to-left sequential application), and `AND(f, f)`
behaves identically to `f` for every predicate filter built by
`entry_field_re_filter` — though not for arbitrary feed
transformations. -/
theorem and_filter_sequential_and_idem_predicate
    (search : String → Bool) (key : String) (F : Feed) :
    (∀ f1 f2 : Filter, AND_filter f1 f2 F = f2 F >>= f1)
    ∧ AND_filter (entry_field_re_filter search key)
        (entry_field_re_filter search key) F =
      entry_field_re_filter search key F := by
  refine ⟨fun f1 f2 => rfl, ?_⟩
  unfold AND_filter entry_field_re_filter
  cases hm : matchEntries search key F.entries with
  | error e => simp [Bind.bind, Except.bind, hm]
  | ok r =>
      simp [Bind.bind, Except.bind, hm, pure, Except.pure,
        matchEntries_idem hm]

/-! ### C8 and C10: description backfill and required metadata keys in
`filter_feed` -/

/-- The backfill value chosen when the description is absent or falsy:
prefer `title`, else `link`, else the literal "Unknown title". -/
def descFallback (meta : Dict) : PVal :=
  match getKey? meta "title" with
  | some t =>
      if truthy t then t
      else match getKey? meta "link" with
        | some l => if truthy l then l else .str "Unknown title"
        | none => .str "Unknown title"
  | none => .str "Unknown title"

/-- The description that reaches the serializer: the original one when
truthy, otherwise the backfill cascade. -/
def descCascade (meta : Dict) : PVal :=
  match getKey? meta "description" with
  | some d => if truthy d then d else descFallback meta
  | none => descFallback meta

theorem backfill_ok {meta : Dict} {t l : PVal}
    (hT : getKey? meta "title" = some t)
    (hL : getKey? meta "link" = some l) :
    backfillDescription meta =
      .ok (setKey meta "description" (descFallback meta)) := by
  unfold backfillDescription descFallback
  rw [hT, hL]
  simp only [getKeyE, hT, hL, Bind.bind, Except.bind]
  by_cases ht : truthy t
  · simp [ht, pure, Except.pure]
  · by_cases hl : truthy l <;>
      simp [ht, hl, getKeyE, hL, Bind.bind, Except.bind, pure, Except.pure]

theorem descFallback_truthy {meta : Dict} {t l : PVal}
    (hT : getKey? meta "title" = some t)
    (hL : getKey? meta "link" = some l) :
    truthy (descFallback meta) = true := by
  unfold descFallback
  rw [hT, hL]
  by_cases ht : truthy t
  · simp [ht]
  · by_cases hl : truthy l
    · simp [ht, hl]
    · simp [ht, hl]; rfl

/-- C8: after the transform, a falsy/absent feed `description` is
backfilled with `title` when truthy, else `link` when truthy, else the
string "Unknown title"; consequently the description handed to the
serializer is always truthy (populated). -/
theorem filter_feed_description (fetched : Except PyErr Feed)
    (transform_func : Filter) (f0 f : Feed) (t l : PVal)
    (hf0 : fetched = .ok f0) (htr : transform_func f0 = .ok f)
    (hT : getKey? f.meta "title" = some t)
    (hL : getKey? f.meta "link" = some l) :
    ∃ out, filter_feed fetched transform_func = .ok out ∧
      out.description = descCascade f.meta ∧
      truthy out.description = true := by
  subst hf0
  unfold filter_feed
  simp only [Bind.bind, Except.bind, htr]
  rcases hd : getKey? f.meta "description" with _ | d
  · rw [if_neg (by simp [truthyOpt])]
    rw [backfill_ok hT hL]
    simp only [Except.bind]
    rw [show popKey (setKey f.meta "description" (descFallback f.meta))
        "title" = .ok (t, delKey (setKey f.meta "description"
          (descFallback f.meta)) "title") by
      unfold popKey
      rw [getKey_setKey_other _ _ (by decide), hT]]
    simp only [Except.bind]
    rw [show popKey (delKey (setKey f.meta "description"
        (descFallback f.meta)) "title") "link" =
        .ok (l, delKey (delKey (setKey f.meta "description"
          (descFallback f.meta)) "title") "link") by
      unfold popKey
      rw [getKey_delKey_other _ (by decide),
        getKey_setKey_other _ _ (by decide), hL]]
    simp only [Except.bind]
    rw [show popKey (delKey (delKey (setKey f.meta "description"
        (descFallback f.meta)) "title") "link") "description" =
        .ok (descFallback f.meta, delKey (delKey (delKey (setKey f.meta
          "description" (descFallback f.meta)) "title") "link")
          "description") by
      unfold popKey
      rw [getKey_delKey_other _ (by decide),
        getKey_delKey_other _ (by decide), getKey_setKey_same]]
    refine ⟨_, rfl, ?_, ?_⟩
    · simp [descCascade, hd]
    · simp only [descCascade, hd]
      exact descFallback_truthy hT hL
  · by_cases htd : truthy d
    · rw [if_pos (by simpa [truthyOpt] using htd)]
      simp only [Except.bind, pure, Except.pure]
      rw [show popKey f.meta "title" =
          .ok (t, delKey f.meta "title") by
        unfold popKey; rw [hT]]
      simp only [Except.bind]
      rw [show popKey (delKey f.meta "title") "link" =
          .ok (l, delKey (delKey f.meta "title") "link") by
        unfold popKey; rw [getKey_delKey_other _ (by decide), hL]]
      simp only [Except.bind]
      rw [show popKey (delKey (delKey f.meta "title") "link")
          "description" = .ok (d, delKey (delKey (delKey f.meta "title")
            "link") "description") by
        unfold popKey
        rw [getKey_delKey_other _ (by decide),
          getKey_delKey_other _ (by decide), hd]]
      refine ⟨_, rfl, ?_, ?_⟩
      · simp [descCascade, hd, htd]
      · simp [descCascade, hd, htd]
    · rw [if_neg (fun hc => htd (by simpa [truthyOpt] using hc))]
      rw [backfill_ok hT hL]
      simp only [Except.bind]
      rw [show popKey (setKey f.meta "description" (descFallback f.meta))
          "title" = .ok (t, delKey (setKey f.meta "description"
            (descFallback f.meta)) "title") by
        unfold popKey
        rw [getKey_setKey_other _ _ (by decide), hT]]
      simp only [Except.bind]
      rw [show popKey (delKey (setKey f.meta "description"
          (descFallback f.meta)) "title") "link" =
          .ok (l, delKey (delKey (setKey f.meta "description"
            (descFallback f.meta)) "title") "link") by
        unfold popKey
        rw [getKey_delKey_other _ (by decide),
          getKey_setKey_other _ _ (by decide), hL]]
      simp only [Except.bind]
      rw [show popKey (delKey (delKey (setKey f.meta "description"
          (descFallback f.meta)) "title") "link") "description" =
          .ok (descFallback f.meta, delKey (delKey (delKey (setKey f.meta
            "description" (descFallback f.meta)) "title") "link")
            "description") by
        unfold popKey
        rw [getKey_delKey_other _ (by decide),
          getKey_delKey_other _ (by decide), getKey_setKey_same]]
      refine ⟨_, rfl, ?_, ?_⟩
      · simp [descCascade, hd, htd]
      · simp only [descCascade, hd, if_neg htd]
        exact descFallback_truthy hT hL

/-- Witness for C8 on a feed whose metadata has a truthy title and no
description. -/
theorem filter_feed_description_witness :
    ∃ out, filter_feed (.ok ⟨[("title", .str "T"), ("link", .str "L")], []⟩)
        (fun F => .ok F) = .ok out ∧
      out.description =
        descCascade [("title", .str "T"), ("link", .str "L")] ∧
      truthy out.description = true :=
  filter_feed_description _ _ _ _ (.str "T") (.str "L") rfl rfl rfl rfl

/-- C10: `filter_feed` unconditionally reads and removes `title` and
`link` from the transformed feed's metadata; when `title` (or, with
`title` present, `link`) is missing, a plain `KeyError` for that key
propagates out rather than being wrapped as a fetch or filter error. -/
theorem filter_feed_keyerror (fetched : Except PyErr Feed)
    (transform_func : Filter) (f0 f : Feed)
    (hf0 : fetched = .ok f0) (htr : transform_func f0 = .ok f) :
    (getKey? f.meta "title" = none →
      filter_feed fetched transform_func = .error (.keyError "title"))
    ∧ (∀ t, getKey? f.meta "title" = some t →
        getKey? f.meta "link" = none →
        filter_feed fetched transform_func = .error (.keyError "link")) := by
  subst hf0
  constructor
  · intro hT
    unfold filter_feed
    simp only [Bind.bind, Except.bind, htr]
    rcases hd : getKey? f.meta "description" with _ | d
    · rw [if_neg (by simp [truthyOpt])]
      unfold backfillDescription
      simp [getKeyE, hT, Bind.bind, Except.bind]
    · by_cases htd : truthy d
      · rw [if_pos (by simpa [truthyOpt] using htd)]
        simp only [Except.bind, pure, Except.pure]
        unfold popKey
        rw [hT]
      · rw [if_neg (fun hc => htd (by simpa [truthyOpt] using hc))]
        unfold backfillDescription
        simp [getKeyE, hT, Bind.bind, Except.bind]
  · intro t hT hL
    unfold filter_feed
    simp only [Bind.bind, Except.bind, htr]
    rcases hd : getKey? f.meta "description" with _ | d
    · rw [if_neg (by simp [truthyOpt])]
      unfold backfillDescription
      simp only [getKeyE, hT, Bind.bind, Except.bind]
      by_cases ht : truthy t
      · simp only [if_pos ht, pure, Except.pure]
        rw [show popKey (setKey f.meta "description" t) "title" =
            .ok (t, delKey (setKey f.meta "description" t) "title") by
          unfold popKey
          rw [getKey_setKey_other _ _ (by decide), hT]]
        simp only [Except.bind]
        unfold popKey
        rw [getKey_delKey_other _ (by decide),
          getKey_setKey_other _ _ (by decide), hL]
      · simp [if_neg ht, getKeyE, hL, Bind.bind, Except.bind]
    · by_cases htd : truthy d
      · rw [if_pos (by simpa [truthyOpt] using htd)]
        simp only [Except.bind, pure, Except.pure]
        rw [show popKey f.meta "title" = .ok (t, delKey f.meta "title") by
          unfold popKey; rw [hT]]
        simp only [Except.bind]
        unfold popKey
        rw [getKey_delKey_other _ (by decide), hL]
      · rw [if_neg (fun hc => htd (by simpa [truthyOpt] using hc))]
        unfold backfillDescription
        simp only [getKeyE, hT, Bind.bind, Except.bind]
        by_cases ht : truthy t
        · simp only [if_pos ht, pure, Except.pure]
          rw [show popKey (setKey f.meta "description" t) "title" =
              .ok (t, delKey (setKey f.meta "description" t) "title") by
            unfold popKey
            rw [getKey_setKey_other _ _ (by decide), hT]]
          simp only [Except.bind]
          unfold popKey
          rw [getKey_delKey_other _ (by decide),
            getKey_setKey_other _ _ (by decide), hL]
        · simp [if_neg ht, getKeyE, hL, Bind.bind, Except.bind]

/-- Witness for C10 on a transformed feed whose metadata lacks
`link`. -/
theorem filter_feed_keyerror_witness :
    filter_feed (.ok ⟨[("title", .str "T")], []⟩) (fun F => .ok F) =
      .error (.keyError "link") :=
  (filter_feed_keyerror _ _ _ _ rfl rfl).2 (.str "T") rfl rfl

/-! ### Error shapes in the filter layer: lookups only raise
`KeyError`/`TypeError` -/

theorem getKeyE_error_shape {d : Dict} {k : String} {e : PyErr}
    (h : getKeyE d k = .error e) : e = .keyError k := by
  unfold getKeyE at h
  cases hg : getKey? d k <;> rw [hg] at h
  · injection h with h; exact h.symm
  · cases h

theorem asStr_error_shape {v : PVal} {e : PyErr}
    (h : asStr v = .error e) : e = .typeError := by
  cases v <;> simp only [asStr] at h <;> first
    | (injection h with h; exact h.symm)
    | cases h

theorem getLinkStr_error_shape {i : Dict} {e : PyErr}
    (h : getLinkStr i = .error e) :
    e = .keyError "link" ∨ e = .typeError := by
  unfold getLinkStr at h
  rcases bind_error h with h1 | ⟨v, _, h1⟩
  · exact Or.inl (getKeyE_error_shape h1)
  · exact Or.inr (asStr_error_shape h1)

theorem getPubdateInt_error_shape {i : Dict} {e : PyErr}
    (h : getPubdateInt i = .error e) :
    e = .keyError "pubdate" ∨ e = .typeError := by
  unfold getPubdateInt at h
  rcases hp : getKey? i "pubdate" with _ | v <;> rw [hp] at h
  · injection h with h; exact Or.inl h.symm
  · cases v <;> cases h <;> exact Or.inr rfl

theorem dedupLoop_error_shape :
    ∀ {es : List Dict} {st : List Dict × List String} {e : PyErr},
      dedupLoop es st = .error e →
      e = .keyError "link" ∨ e = .typeError := by
  intro es
  induction es with
  | nil => intro st e h; cases h
  | cons i rest ih =>
      intro st e h
      obtain ⟨acc, seen⟩ := st
      unfold dedupLoop at h
      rcases bind_error h with h1 | ⟨l, _, h1⟩
      · exact getLinkStr_error_shape h1
      · by_cases hm : l ∈ seen
        · rw [if_pos hm] at h1; exact ih h1
        · rw [if_neg hm] at h1; exact ih h1

theorem keyEntries_error_shape :
    ∀ {es : List Dict} {e : PyErr}, keyEntries es = .error e →
      e = .keyError "pubdate" ∨ e = .typeError := by
  intro es
  induction es with
  | nil => intro e h; cases h
  | cons i rest ih =>
      intro e h
      unfold keyEntries at h
      rcases bind_error h with h1 | ⟨n, _, h1⟩
      · exact getPubdateInt_error_shape h1
      rcases bind_error h1 with h2 | ⟨ks, _, h2⟩
      · exact ih h2
      · cases h2

theorem matchEntries_error_shape {search : String → Bool} {key : String} :
    ∀ {es : List Dict} {e : PyErr}, matchEntries search key es = .error e →
      e = .keyError key ∨ e = .typeError := by
  intro es
  induction es with
  | nil => intro e h; cases h
  | cons i rest ih =>
      intro e h
      unfold matchEntries at h
      rcases bind_error h with h1 | ⟨v, _, h1⟩
      · exact Or.inl (getKeyE_error_shape h1)
      rcases bind_error h1 with h2 | ⟨s, _, h2⟩
      · exact Or.inr (asStr_error_shape h2)
      rcases bind_error h2 with h3 | ⟨rest2, _, h3⟩
      · exact ih h3
      · by_cases hm : search s
        · rw [if_pos hm] at h3; cases h3
        · rw [if_neg hm] at h3; cases h3

/-! ### Invariants of the deduplication loop -/

theorem dedupLoop_invariant :
    ∀ {es acc : List Dict} {seen : List String}
      {out : List Dict × List String},
      dedupLoop es (acc, seen) = .ok out →
      acc.length = seen.length → out.1.length = out.2.length := by
  intro es
  induction es with
  | nil =>
      intro acc seen out h hlen
      injection h with h
      subst h
      exact hlen
  | cons i rest ih =>
      intro acc seen out h hlen
      unfold dedupLoop at h
      obtain ⟨l, _, h1⟩ := bind_ok h
      by_cases hm : l ∈ seen
      · rw [if_pos hm] at h1; exact ih h1 hlen
      · rw [if_neg hm] at h1
        exact ih h1 (by simp [hlen])

/-- The default-valued `link` accessor agreeing with `getLinkStr` on
entries whose `link` is a string. -/
def linkD (i : Dict) : String :=
  match getKey? i "link" with
  | some (.str s) => s
  | _ => ""

/-- The default-valued `pubdate` accessor agreeing with
`getPubdateInt` on entries whose `pubdate` is a `datetime`. -/
def pubD (i : Dict) : Int :=
  match getKey? i "pubdate" with
  | some (.dt n) => n
  | _ => 0

/-- The entry has a `datetime` value at `pubdate`. -/
def entryHasDtAt (i : Dict) : Bool :=
  match getKey? i "pubdate" with
  | some (.dt _) => true
  | _ => false

theorem getLinkStr_of_hasStr {i : Dict}
    (h : entryHasStrAt "link" i = true) : getLinkStr i = .ok (linkD i) := by
  unfold entryHasStrAt at h
  rcases hk : getKey? i "link" with _ | v <;> rw [hk] at h
  · cases h
  · cases v <;> try (exact absurd h Bool.false_ne_true)
    case str s =>
      unfold getLinkStr linkD
      rw [hk]
      simp [getKeyE, hk, asStr, Bind.bind, Except.bind]

theorem getPubdateInt_of_hasDt {i : Dict}
    (h : entryHasDtAt i = true) : getPubdateInt i = .ok (pubD i) := by
  unfold entryHasDtAt at h
  rcases hk : getKey? i "pubdate" with _ | v <;> rw [hk] at h
  · cases h
  · cases v <;> try (exact absurd h Bool.false_ne_true)
    case dt n =>
      unfold getPubdateInt pubD
      rw [hk]

theorem dedupLoop_links :
    ∀ {es acc : List Dict} {seen : List String}
      {out : List Dict × List String},
      dedupLoop es (acc, seen) = .ok out →
      seen.Nodup → acc.map linkD = seen.reverse →
      out.2.Nodup ∧ out.1.map linkD = out.2.reverse := by
  intro es
  induction es with
  | nil =>
      intro acc seen out h hnd hmap
      injection h with h
      subst h
      exact ⟨hnd, hmap⟩
  | cons i rest ih =>
      intro acc seen out h hnd hmap
      unfold dedupLoop at h
      obtain ⟨l, hl, h1⟩ := bind_ok h
      have hil : linkD i = l := by
        unfold getLinkStr at hl
        obtain ⟨v, hv, h2⟩ := bind_ok hl
        unfold getKeyE at hv
        rcases hk : getKey? i "link" with _ | w <;> rw [hk] at hv
        · cases hv
        injection hv with hv
        subst hv
        cases w
        case str s =>
          simp only [asStr] at h2
          injection h2 with h2
          unfold linkD
          rw [hk, h2]
        all_goals (simp only [asStr] at h2; cases h2)
      by_cases hm : l ∈ seen
      · rw [if_pos hm] at h1; exact ih h1 hnd hmap
      · rw [if_neg hm] at h1
        refine ih h1 (List.nodup_cons.mpr ⟨hm, hnd⟩) ?_
        simp [hmap, hil]

/-! ### The stable sort used by `OR_filter` -/

theorem stableInsert_perm (p : Int × Dict) :
    ∀ l : List (Int × Dict), (stableInsert p l).Perm (p :: l) := by
  intro l
  induction l with
  | nil => exact List.Perm.refl _
  | cons q rest ih =>
      unfold stableInsert
      by_cases h : p.1 < q.1
      · rw [if_pos h]
      · rw [if_neg h]
        exact (List.Perm.cons q ih).trans (List.Perm.swap p q rest)

theorem sortKeyed_perm_aux :
    ∀ (l acc : List (Int × Dict)),
      (l.foldl (fun a p => stableInsert p a) acc).Perm (acc ++ l) := by
  intro l
  induction l with
  | nil => intro acc; simp
  | cons p rest ih =>
      intro acc
      have h1 := ih (stableInsert p acc)
      have h2 : (stableInsert p acc ++ rest).Perm (acc ++ p :: rest) :=
        ((stableInsert_perm p acc).append_right rest).trans
          (List.perm_middle.symm)
      exact h1.trans h2

theorem sortKeyed_perm (l : List (Int × Dict)) : (sortKeyed l).Perm l := by
  simpa using sortKeyed_perm_aux l []

theorem stableInsert_sorted (p : Int × Dict) :
    ∀ {l : List (Int × Dict)},
      l.Pairwise (fun a b => a.1 ≤ b.1) →
      (stableInsert p l).Pairwise (fun a b => a.1 ≤ b.1) := by
  intro l
  induction l with
  | nil => intro _; simp [stableInsert]
  | cons q rest ih =>
      intro hs
      rw [List.pairwise_cons] at hs
      obtain ⟨hq, hrest⟩ := hs
      unfold stableInsert
      by_cases h : p.1 < q.1
      · rw [if_pos h]
        refine List.pairwise_cons.mpr ⟨?_, List.pairwise_cons.mpr ⟨hq, hrest⟩⟩
        intro b hb
        rcases List.mem_cons.mp hb with rfl | hb
        · omega
        · have := hq b hb; omega
      · rw [if_neg h]
        refine List.pairwise_cons.mpr ⟨?_, ih hrest⟩
        intro b hb
        have := (stableInsert_perm p rest).mem_iff.mp hb
        rcases List.mem_cons.mp this with rfl | hb'
        · omega
        · exact hq b hb'

theorem sortKeyed_sorted_aux :
    ∀ (l acc : List (Int × Dict)),
      acc.Pairwise (fun a b => a.1 ≤ b.1) →
      (l.foldl (fun a p => stableInsert p a) acc).Pairwise
        (fun a b => a.1 ≤ b.1) := by
  intro l
  induction l with
  | nil => intro acc h; exact h
  | cons p rest ih =>
      intro acc h
      exact ih (stableInsert p acc) (stableInsert_sorted p h)

theorem sortKeyed_sorted (l : List (Int × Dict)) :
    (sortKeyed l).Pairwise (fun a b => a.1 ≤ b.1) :=
  sortKeyed_sorted_aux l [] List.Pairwise.nil

theorem keyEntries_of_allDt :
    ∀ {es : List Dict}, es.all entryHasDtAt = true →
      keyEntries es = .ok (es.map (fun i => (pubD i, i))) := by
  intro es
  induction es with
  | nil => intro _; rfl
  | cons i rest ih =>
      intro h
      simp only [List.all_cons, Bool.and_eq_true] at h
      obtain ⟨h1, h2⟩ := h
      unfold keyEntries
      simp [getPubdateInt_of_hasDt h1, ih h2, Bind.bind, Except.bind,
        pure, Except.pure]

theorem keyEntries_ok_shape :
    ∀ {es : List Dict} {ks : List (Int × Dict)}, keyEntries es = .ok ks →
      ks.map (fun p => p.2) = es := by
  intro es
  induction es with
  | nil =>
      intro ks h
      injection h with h
      subst h
      rfl
  | cons i rest ih =>
      intro ks h
      unfold keyEntries at h
      obtain ⟨n, _, h1⟩ := bind_ok h
      obtain ⟨ks0, hks0, h2⟩ := bind_ok h1
      simp only [pure, Except.pure] at h2
      injection h2 with h2
      subst h2
      simp [ih hks0]

/-! ### C9 and C2: the OR consistency assertion -/

/-- The run raised an `AssertionError`. -/
def isAssertErrRes {α : Type} : Except PyErr α → Bool
  | .error (.assertionError _) => true
  | _ => false

/-- C9: the consistency assertion inside `OR_filter` always holds:
after the deduplication loop the accumulated entry count equals the
seen-link count (each appended entry adds exactly one new link and
duplicates are skipped), so — whenever the two constituent filters do
not themselves raise an assertion failure — the assertion-failure
branch of `OR_filter` is unreachable for all inputs. -/
theorem or_error_shape {f1 f2 : Filter} {F : Feed} {e : PyErr}
    (h : OR_filter f1 f2 F = .error e) :
    f1 (deepcopy F) = .error e ∨ f2 F = .error e ∨
      e = .keyError "link" ∨ e = .typeError ∨ e = .keyError "pubdate" := by
  unfold OR_filter at h
  rcases bind_error h with h1 | ⟨A, hA, h1⟩
  · exact Or.inl h1
  rcases bind_error h1 with h2 | ⟨B, hB, h2⟩
  · exact Or.inr (Or.inl h2)
  rcases bind_error h2 with h3 | ⟨st, hst, h3⟩
  · rcases dedupLoop_error_shape h3 with rfl | rfl
    · exact Or.inr (Or.inr (Or.inl rfl))
    · exact Or.inr (Or.inr (Or.inr (Or.inl rfl)))
  rcases bind_error h3 with h4 | ⟨ks, hks, h4⟩
  · rcases keyEntries_error_shape h4 with rfl | rfl
    · exact Or.inr (Or.inr (Or.inr (Or.inr rfl)))
    · exact Or.inr (Or.inr (Or.inr (Or.inl rfl)))
  · obtain ⟨entries, seen⟩ := st
    split at h4
    · exact Except.noConfusion h4
    case isFalse hc =>
      exfalso
      apply hc
      show (sortKeyed ks).length = seen.length
      have hlen : entries.length = seen.length := dedupLoop_invariant hst rfl
      have hkl : ks.length = entries.length := by
        have hm := keyEntries_ok_shape hks
        calc ks.length = (ks.map (fun p => p.2)).length := by simp
          _ = entries.length := by rw [hm]
      have := (sortKeyed_perm ks).length_eq
      omega

theorem or_filter_assert_unreachable (f1 f2 : Filter) (F : Feed)
    (h1 : isAssertErrRes (f1 (deepcopy F)) = false)
    (h2 : isAssertErrRes (f2 F) = false) :
    isAssertErrRes (OR_filter f1 f2 F) = false := by
  cases hres : OR_filter f1 f2 F with
  | ok out => rfl
  | error e =>
      rcases or_error_shape hres with h | h | rfl | rfl | rfl
      · rw [h] at h1; exact h1
      · rw [h] at h2; exact h2
      all_goals rfl

/-- Witness for C9 with two predicate filters over a one-entry feed. -/
theorem or_filter_assert_unreachable_witness :
    isAssertErrRes (OR_filter (entry_field_re_filter (reSearch "a") "title")
      (entry_field_re_filter (reSearch "b") "title")
      ⟨[("title", .str "T")],
        [[("title", .str "apple"), ("link", .str "x"),
          ("pubdate", .dt 1)]]⟩) = false :=
  or_filter_assert_unreachable _ _ _ (by decide) (by decide)

/-- C2 counterexample: a feed whose two distinct entries share the
`link` value "a".  Both filters keep everything, yet the OR
composition returns normally with the later entry silently dropped —
the claimed fatal consistency error is not raised. -/
theorem or_duplicate_link_counterexample :
    OR_filter (entry_field_re_filter (reSearch "") "title")
        (entry_field_re_filter (reSearch "") "title")
        ⟨[("title", .str "T")],
          [[("link", .str "a"), ("pubdate", .dt 1), ("title", .str "x")],
           [("link", .str "a"), ("pubdate", .dt 2), ("title", .str "y")]]⟩ =
      .ok ⟨[("title", .str "T")],
        [[("link", .str "a"), ("pubdate", .dt 1), ("title", .str "x")]]⟩ ∧
    isAssertErrRes (OR_filter (entry_field_re_filter (reSearch "") "title")
        (entry_field_re_filter (reSearch "") "title")
        ⟨[("title", .str "T")],
          [[("link", .str "a"), ("pubdate", .dt 1), ("title", .str "x")],
           [("link", .str "a"), ("pubdate", .dt 2), ("title", .str "y")]]⟩) =
      false := by
  constructor <;> rfl

/-- C2 amended: the entry count of a successful OR result always
equals its distinct-`link` count (the result's links are pairwise
distinct); when the two filtered sets contain distinct entries sharing
a `link`, the deduplication loop silently keeps only the first
occurrence and the assertion-failure branch is not taken. -/
theorem or_filter_result_links_nodup (f1 f2 : Filter) (F F' : Feed)
    (h : OR_filter f1 f2 F = .ok F') :
    (F'.entries.map linkD).Nodup := by
  unfold OR_filter at h
  obtain ⟨A, _, h1⟩ := bind_ok h
  obtain ⟨B, _, h2⟩ := bind_ok h1
  obtain ⟨st, hst, h3⟩ := bind_ok h2
  obtain ⟨ks, hks, h4⟩ := bind_ok h3
  obtain ⟨entries, seen⟩ := st
  split at h4
  · simp only [pure, Except.pure] at h4
    injection h4 with h4
    subst h4
    have hnd : seen.Nodup ∧ entries.map linkD = seen.reverse :=
      dedupLoop_links hst List.nodup_nil rfl
    have hmap : ks.map (fun p => p.2) = entries := keyEntries_ok_shape hks
    have hperm : (((sortKeyed ks).map (fun p => p.2)).map linkD).Perm
        (entries.map linkD) := by
      rw [← hmap]
      exact (((sortKeyed_perm ks).map _).map _)
    show ((((sortKeyed ks).map (fun p => p.2)).map linkD)).Nodup
    rw [hperm.nodup_iff, hnd.2]
    exact List.nodup_reverse.mpr hnd.1
  · cases h4

/-- Witness for the amended C2 at the duplicate-link feed. -/
theorem or_filter_result_links_nodup_witness :
    (((⟨[("title", .str "T")],
        [[("link", .str "a"), ("pubdate", .dt 1),
          ("title", .str "x")]]⟩ : Feed).entries).map linkD).Nodup :=
  or_filter_result_links_nodup
    (entry_field_re_filter (reSearch "") "title")
    (entry_field_re_filter (reSearch "") "title")
    ⟨[("title", .str "T")],
      [[("link", .str "a"), ("pubdate", .dt 1), ("title", .str "x")],
       [("link", .str "a"), ("pubdate", .dt 2), ("title", .str "y")]]⟩
    _ (by rfl)

/-! ### C1: declarative characterization of `OR_filter` -/

/-- The declarative first-occurrence selection: keep each entry whose
`link` has not appeared on an earlier entry. -/
def firstOccByLink : List Dict → List Dict
  | [] => []
  | e :: rest =>
      e :: firstOccByLink (rest.filter (fun e2 => !(linkD e2 == linkD e)))
termination_by es => es.length
decreasing_by
  simp only [List.length_cons]
  exact Nat.lt_succ_of_le (List.length_filter_le _ _)

/-- The pure computation performed by the deduplication loop on the
kept-entry component. -/
def pureDedup : List String → List Dict → List Dict
  | _, [] => []
  | seen, i :: rest =>
      if linkD i ∈ seen then pureDedup seen rest
      else i :: pureDedup (linkD i :: seen) rest

theorem dedupLoop_entries :
    ∀ {es : List Dict}, es.all (entryHasStrAt "link") = true →
      ∀ (acc : List Dict) (seen : List String),
      ∃ seen2, dedupLoop es (acc, seen) =
        .ok (acc ++ pureDedup seen es, seen2) := by
  intro es
  induction es with
  | nil => intro _ acc seen; exact ⟨seen, by simp [dedupLoop, pureDedup]⟩
  | cons i rest ih =>
      intro h acc seen
      simp only [List.all_cons, Bool.and_eq_true] at h
      obtain ⟨h1, h2⟩ := h
      unfold dedupLoop
      rw [getLinkStr_of_hasStr h1]
      simp only [Bind.bind, Except.bind]
      by_cases hm : linkD i ∈ seen
      · rw [if_pos hm]
        obtain ⟨seen2, hrec⟩ := ih h2 acc seen
        refine ⟨seen2, ?_⟩
        rw [hrec]
        simp [pureDedup, hm]
      · rw [if_neg hm]
        obtain ⟨seen2, hrec⟩ := ih h2 (acc ++ [i]) (linkD i :: seen)
        refine ⟨seen2, ?_⟩
        rw [hrec]
        simp [pureDedup, hm]

theorem pureDedup_congr :
    ∀ {es : List Dict} {s1 s2 : List String}, (∀ x, x ∈ s1 ↔ x ∈ s2) →
      pureDedup s1 es = pureDedup s2 es := by
  intro es
  induction es with
  | nil => intro s1 s2 _; rfl
  | cons i rest ih =>
      intro s1 s2 hiff
      unfold pureDedup
      by_cases hm : linkD i ∈ s1
      · rw [if_pos hm, if_pos ((hiff _).mp hm)]
        exact ih hiff
      · rw [if_neg hm, if_neg (fun hc => hm ((hiff _).mpr hc))]
        refine congrArg _ (ih ?_)
        intro x
        simp only [List.mem_cons]
        exact or_congr Iff.rfl (hiff x)

theorem pureDedup_cons_filter :
    ∀ {es : List Dict} {seen : List String} {l : String},
      pureDedup (l :: seen) es =
        pureDedup seen (es.filter (fun e2 => !(linkD e2 == l))) := by
  intro es
  induction es with
  | nil => intro seen l; rfl
  | cons i rest ih =>
      intro seen l
      by_cases hil : linkD i = l
      · rw [show pureDedup (l :: seen) (i :: rest) =
            pureDedup (l :: seen) rest by
          simp only [pureDedup]
          rw [if_pos (by simp [hil])]]
        rw [show (i :: rest).filter (fun e2 => !(linkD e2 == l)) =
            rest.filter (fun e2 => !(linkD e2 == l)) by
          simp [List.filter_cons, hil]]
        exact ih
      · rw [show (i :: rest).filter (fun e2 => !(linkD e2 == l)) =
            i :: rest.filter (fun e2 => !(linkD e2 == l)) by
          simp [List.filter_cons, hil]]
        by_cases hm : linkD i ∈ seen
        · rw [show pureDedup (l :: seen) (i :: rest) =
              pureDedup (l :: seen) rest by
            simp only [pureDedup]
            rw [if_pos (by simp [hm])]]
          rw [show pureDedup seen
              (i :: rest.filter (fun e2 => !(linkD e2 == l))) =
              pureDedup seen (rest.filter (fun e2 => !(linkD e2 == l))) by
            simp only [pureDedup]
            rw [if_pos hm]]
          exact ih
        · rw [show pureDedup (l :: seen) (i :: rest) =
              i :: pureDedup (linkD i :: l :: seen) rest by
            simp only [pureDedup]
            rw [if_neg (by simp [hil, hm])]]
          rw [show pureDedup seen
              (i :: rest.filter (fun e2 => !(linkD e2 == l))) =
              i :: pureDedup (linkD i :: seen)
                (rest.filter (fun e2 => !(linkD e2 == l))) by
            simp only [pureDedup]
            rw [if_neg hm]]
          refine congrArg _ ?_
          rw [@pureDedup_congr rest (linkD i :: l :: seen) (l :: linkD i :: seen) ?_, ih]
          intro x
          simp only [List.mem_cons]
          tauto

theorem pureDedup_firstOcc_aux :
    ∀ (n : Nat) (es : List Dict), es.length ≤ n →
      pureDedup [] es = firstOccByLink es := by
  intro n
  induction n with
  | zero =>
      intro es h
      cases es with
      | nil => simp [pureDedup, firstOccByLink]
      | cons e rest => simp at h
  | succ n ih =>
      intro es h
      cases es with
      | nil => simp [pureDedup, firstOccByLink]
      | cons e rest =>
          rw [firstOccByLink]
          rw [show pureDedup [] (e :: rest) =
              e :: pureDedup [linkD e] rest by
            simp only [pureDedup]
            rw [if_neg (by simp)]]
          rw [show pureDedup [linkD e] rest =
              pureDedup [] (rest.filter (fun e2 => !(linkD e2 == linkD e)))
            from pureDedup_cons_filter]
          refine congrArg _ (ih _ ?_)
          simp only [List.length_cons, Nat.succ_le_succ_iff] at h
          exact le_trans (List.length_filter_le _ _) h

theorem pureDedup_eq_firstOcc (es : List Dict) :
    pureDedup [] es = firstOccByLink es :=
  pureDedup_firstOcc_aux es.length es le_rfl

theorem pureDedup_subset :
    ∀ {es : List Dict} {seen : List String} {i : Dict},
      i ∈ pureDedup seen es → i ∈ es := by
  intro es
  induction es with
  | nil => intro seen i h; cases h
  | cons e rest ih =>
      intro seen i h
      unfold pureDedup at h
      by_cases hm : linkD e ∈ seen
      · rw [if_pos hm] at h
        exact List.mem_cons_of_mem _ (ih h)
      · rw [if_neg hm] at h
        rcases List.mem_cons.mp h with rfl | h
        · exact List.mem_cons_self ..
        · exact List.mem_cons_of_mem _ (ih h)

/-- C1: for every feed `F` and filters `f1`, `f2` — evaluating `f1` on
an independent deep copy of `F` and `f2` on the original — whose runs
succeed and leave entries with string `link`s and `datetime`
`pubdate`s, `OR_filter f1 f2` returns the original feed object (same
metadata) whose entry sequence is: the concatenation of `f1`'s
surviving entries followed by `f2`'s, with entries whose `link` was
already seen removed (first occurrence wins, so `f1`'s entries win
ties), sorted ascending by `pubdate`. -/
theorem or_filter_spec (f1 f2 : Filter) (F A B : Feed)
    (h1 : f1 (deepcopy F) = .ok A) (h2 : f2 F = .ok B)
    (hok : (A.entries ++ B.entries).all
      (fun i => entryHasStrAt "link" i && entryHasDtAt i) = true) :
    ∃ r, OR_filter f1 f2 F = .ok ⟨F.meta, r⟩ ∧
      r.Perm (firstOccByLink (A.entries ++ B.entries)) ∧
      r.Pairwise (fun a b => pubD a ≤ pubD b) := by
  have hlinks : (A.entries ++ B.entries).all (entryHasStrAt "link") = true := by
    rw [List.all_eq_true] at hok ⊢
    intro i hi
    have := hok i hi
    simp only [Bool.and_eq_true] at this
    exact this.1
  have hdts : (pureDedup [] (A.entries ++ B.entries)).all entryHasDtAt
      = true := by
    rw [List.all_eq_true]
    intro i hi
    rw [List.all_eq_true] at hok
    have := hok i (pureDedup_subset hi)
    simp only [Bool.and_eq_true] at this
    exact this.2
  obtain ⟨seen2, hd⟩ := dedupLoop_entries hlinks [] []
  have hkeys := keyEntries_of_allDt hdts
  have hmapsnd : ((pureDedup [] (A.entries ++ B.entries)).map
      (fun i => (pubD i, i))).map (fun p => p.2) =
      pureDedup [] (A.entries ++ B.entries) := by
    rw [List.map_map]
    exact List.map_id' _
  have hlen : (sortKeyed ((pureDedup [] (A.entries ++ B.entries)).map
      (fun i => (pubD i, i)))).length = seen2.length := by
    have hperm := (sortKeyed_perm ((pureDedup [] (A.entries ++
      B.entries)).map (fun i => (pubD i, i)))).length_eq
    have hinv := dedupLoop_invariant hd rfl
    simp only [List.length_map] at hperm
    simp only [List.nil_append] at hinv
    omega
  refine ⟨(sortKeyed ((pureDedup [] (A.entries ++ B.entries)).map
      (fun i => (pubD i, i)))).map (fun p => p.2), ?_, ?_, ?_⟩
  · unfold OR_filter
    rw [h1, h2]
    simp only [Bind.bind, Except.bind]
    rw [hd]
    simp only [List.nil_append, hkeys]
    rw [if_pos hlen]
    rfl
  · rw [← pureDedup_eq_firstOcc]
    have hp : ((sortKeyed ((pureDedup [] (A.entries ++ B.entries)).map
        (fun i => (pubD i, i)))).map (fun p => p.2)).Perm
        (((pureDedup [] (A.entries ++ B.entries)).map
          (fun i => (pubD i, i))).map (fun p => p.2)) :=
      (sortKeyed_perm _).map _
    rw [hmapsnd] at hp
    exact hp
  · have hs := sortKeyed_sorted ((pureDedup [] (A.entries ++
      B.entries)).map (fun i => (pubD i, i)))
    have hmem : ∀ p ∈ sortKeyed ((pureDedup [] (A.entries ++
        B.entries)).map (fun i => (pubD i, i))), p.1 = pubD p.2 := by
      intro p hp
      have hin := (sortKeyed_perm _).mem_iff.mp hp
      obtain ⟨i, _, rfl⟩ := List.mem_map.mp hin
      rfl
    rw [List.pairwise_map]
    refine List.Pairwise.imp_of_mem ?_ hs
    intro a b ha hb hab
    have hA := hmem a ha
    have hB := hmem b hb
    show pubD a.2 ≤ pubD b.2
    rw [← hA, ← hB]
    exact hab

/-- Witness for C1: two title filters on a two-entry feed whose
pubdates are out of order; the OR result is re-sorted ascending. -/
theorem or_filter_spec_witness :
    ∃ r, OR_filter (entry_field_re_filter (reSearch "a") "title")
        (entry_field_re_filter (reSearch "n") "title")
        ⟨[("title", .str "T")],
          [[("title", .str "apple"), ("link", .str "x"), ("pubdate", .dt 2)],
           [("title", .str "banana"), ("link", .str "y"),
             ("pubdate", .dt 1)]]⟩ =
        .ok ⟨[("title", .str "T")], r⟩ ∧
      r.Perm (firstOccByLink
        ((⟨[("title", .str "T")],
          [[("title", .str "apple"), ("link", .str "x"), ("pubdate", .dt 2)],
           [("title", .str "banana"), ("link", .str "y"),
             ("pubdate", .dt 1)]]⟩ : Feed).entries ++
         (⟨[("title", .str "T")],
          [[("title", .str "banana"), ("link", .str "y"),
             ("pubdate", .dt 1)]]⟩ : Feed).entries)) ∧
      r.Pairwise (fun a b => pubD a ≤ pubD b) :=
  or_filter_spec _ _ _
    ⟨[("title", .str "T")],
      [[("title", .str "apple"), ("link", .str "x"), ("pubdate", .dt 2)],
       [("title", .str "banana"), ("link", .str "y"), ("pubdate", .dt 1)]]⟩
    ⟨[("title", .str "T")],
      [[("title", .str "banana"), ("link", .str "y"), ("pubdate", .dt 1)]]⟩
    rfl rfl (by decide)

/-! ### C3: builder validation in `builtin_main` -/

/-- The error is the `FeedFilterError` exception. -/
def errIsFilter : PyErr → Bool
  | .feedFilterError _ => true
  | _ => false

/-- The run raised a `FeedFilterError`. -/
def resFilterErr {α : Type} : Except PyErr α → Bool
  | .error e => errIsFilter e
  | .ok _ => false

theorem entry_field_no_filterErr (search : String → Bool) (key : String)
    (feed : Feed) :
    resFilterErr (entry_field_re_filter search key feed) = false := by
  unfold entry_field_re_filter
  cases hm : matchEntries search key feed.entries with
  | error e =>
      rcases matchEntries_error_shape hm with rfl | rfl <;>
        simp [Bind.bind, Except.bind, resFilterErr, errIsFilter]
  | ok r => simp [Bind.bind, Except.bind, resFilterErr, pure, Except.pure]

theorem AND_no_filterErr {f1 f2 : Filter}
    (h1 : ∀ G, resFilterErr (f1 G) = false)
    (h2 : ∀ G, resFilterErr (f2 G) = false) (F : Feed) :
    resFilterErr (AND_filter f1 f2 F) = false := by
  unfold AND_filter
  cases hm : f2 F with
  | error e =>
      have := h2 F
      rw [hm] at this
      simpa [Bind.bind, Except.bind] using this
  | ok G =>
      simpa [Bind.bind, Except.bind] using h1 G

theorem OR_no_filterErr {f1 f2 : Filter}
    (h1 : ∀ G, resFilterErr (f1 G) = false)
    (h2 : ∀ G, resFilterErr (f2 G) = false) (F : Feed) :
    resFilterErr (OR_filter f1 f2 F) = false := by
  cases hres : OR_filter f1 f2 F with
  | ok out => rfl
  | error e =>
      rcases or_error_shape hres with h | h | rfl | rfl | rfl
      · have := h1 (deepcopy F); rw [h] at this; exact this
      · have := h2 F; rw [h] at this; exact this
      all_goals rfl

theorem popKey_error_shape {d : Dict} {k : String} {e : PyErr}
    (h : popKey d k = .error e) : e = .keyError k := by
  unfold popKey at h
  cases hg : getKey? d k <;> rw [hg] at h
  · injection h with h; exact h.symm
  · cases h

theorem backfill_error_shape {meta : Dict} {e : PyErr}
    (h : backfillDescription meta = .error e) :
    e = .keyError "title" ∨ e = .keyError "link" := by
  unfold backfillDescription at h
  rcases bind_error h with h1 | ⟨t, _, h1⟩
  · exact Or.inl (getKeyE_error_shape h1)
  by_cases ht : truthy t
  · rw [if_pos ht] at h1
    exact Except.noConfusion h1
  · rw [if_neg ht] at h1
    rcases bind_error h1 with h2 | ⟨l, _, h2⟩
    · exact Or.inr (getKeyE_error_shape h2)
    by_cases hl : truthy l
    · rw [if_pos hl] at h2
      exact Except.noConfusion h2
    · rw [if_neg hl] at h2
      exact Except.noConfusion h2

theorem filter_feed_error_shape {fetched : Except PyErr Feed}
    {transform_func : Filter} {e : PyErr}
    (h : filter_feed fetched transform_func = .error e) :
    fetched = .error e ∨ (∃ f0, transform_func f0 = .error e) ∨
      e = .keyError "title" ∨ e = .keyError "link" ∨
      e = .keyError "description" := by
  unfold filter_feed at h
  rcases bind_error h with h1 | ⟨f0, hf0, h1⟩
  · exact Or.inl h1
  rcases bind_error h1 with h2 | ⟨f, hf, h2⟩
  · exact Or.inr (Or.inl ⟨f0, h2⟩)
  rcases bind_error h2 with h3 | ⟨meta, hmeta, h3⟩
  · split at h3
    · exact Except.noConfusion h3
    · rcases backfill_error_shape h3 with rfl | rfl
      · exact Or.inr (Or.inr (Or.inl rfl))
      · exact Or.inr (Or.inr (Or.inr (Or.inl rfl)))
  rcases bind_error h3 with h4 | ⟨p1, _, h4⟩
  · exact Or.inr (Or.inr (Or.inl (popKey_error_shape h4)))
  rcases bind_error h4 with h5 | ⟨p2, _, h5⟩
  · exact Or.inr (Or.inr (Or.inr (Or.inl (popKey_error_shape h5))))
  rcases bind_error h5 with h6 | ⟨p3, _, h6⟩
  · exact Or.inr (Or.inr (Or.inr (Or.inr (popKey_error_shape h6))))
  · exact Except.noConfusion h6

theorem filter_feed_no_filterErr {fetched : Except PyErr Feed}
    {transform_func : Filter}
    (hf : resFilterErr fetched = false)
    (ht : ∀ G, resFilterErr (transform_func G) = false) :
    resFilterErr (filter_feed fetched transform_func) = false := by
  cases hres : filter_feed fetched transform_func with
  | ok out => rfl
  | error e =>
      rcases filter_feed_error_shape hres with h | ⟨f0, h⟩ | rfl | rfl | rfl
      · rw [h] at hf; exact hf
      · have := ht f0; rw [h] at this; exact this
      all_goals rfl

theorem constructed_no_filterErr {f : Filter}
    {title_filters url_filters : List String}
    (hmem : f ∈ title_filters.map in_title_filter ++
      url_filters.map in_url_filter) :
    ∀ G, resFilterErr (f G) = false := by
  intro G
  rcases List.mem_append.mp hmem with h | h <;>
    obtain ⟨pat, _, rfl⟩ := List.mem_map.mp h <;>
    exact entry_field_no_filterErr _ _ G

/-- C3: `builtin_main` raises `FeedFilterError` exactly when the total
number of constructed filters is 0 or greater than 2, or the operation
string is neither "AND" nor "OR" (the operation check applies
regardless of filter count); and in every such case the result is the
same for every possible fetch outcome, so the error is raised before
any fetch or filter evaluation and no network I/O occurs. -/
theorem builtin_main_validation (fetched : Except PyErr Feed)
    (url_filters title_filters : List String) (operation : String)
    (hf : resFilterErr fetched = false) :
    (resFilterErr (builtin_main fetched url_filters title_filters operation)
        = true ↔
      ((operation ≠ "OR" ∧ operation ≠ "AND") ∨
        title_filters.length + url_filters.length = 0 ∨
        title_filters.length + url_filters.length > 2))
    ∧ (((operation ≠ "OR" ∧ operation ≠ "AND") ∨
        title_filters.length + url_filters.length = 0 ∨
        title_filters.length + url_filters.length > 2) →
      ∀ fetched2 : Except PyErr Feed,
        builtin_main fetched url_filters title_filters operation =
          builtin_main fetched2 url_filters title_filters operation) := by
  by_cases hop : operation ≠ "OR" ∧ operation ≠ "AND"
  · constructor
    · rw [show builtin_main fetched url_filters title_filters operation =
          .error (.feedFilterError "Operation can only be AND or OR") by
        unfold builtin_main; rw [if_pos hop]]
      exact ⟨fun _ => Or.inl hop, fun _ => rfl⟩
    · intro _ fetched2
      unfold builtin_main
      rw [if_pos hop, if_pos hop]
  · have hlen : (title_filters.map in_title_filter ++
        url_filters.map in_url_filter).length =
        title_filters.length + url_filters.length := by simp
    rcases hbf : title_filters.map in_title_filter ++
        url_filters.map in_url_filter with _ | ⟨f, _ | ⟨f2, _ | ⟨f3, rest⟩⟩⟩
    · have h0 : title_filters.length + url_filters.length = 0 := by
        rw [← hlen, hbf]; rfl
      constructor
      · rw [show builtin_main fetched url_filters title_filters operation =
            .error (.feedFilterError "No filters provided!") by
          unfold builtin_main; rw [if_neg hop, hbf]]
        exact ⟨fun _ => Or.inr (Or.inl h0), fun _ => rfl⟩
      · intro _ fetched2
        unfold builtin_main
        rw [if_neg hop, hbf, if_neg hop]
    · have h1len : title_filters.length + url_filters.length = 1 := by
        rw [← hlen, hbf]; rfl
      have hmem : f ∈ title_filters.map in_title_filter ++
          url_filters.map in_url_filter := by
        rw [hbf]; simp
      have hnofe : resFilterErr (builtin_main fetched url_filters
          title_filters operation) = false := by
        rw [show builtin_main fetched url_filters title_filters operation =
            filter_feed fetched f by
          unfold builtin_main; rw [if_neg hop, hbf]]
        exact filter_feed_no_filterErr hf (constructed_no_filterErr hmem)
      constructor
      · rw [hnofe]
        constructor
        · intro hc; exact absurd hc Bool.false_ne_true
        · intro hcond
          exfalso
          rcases hcond with hcase | h0 | h2
          · exact hop hcase
          · omega
          · omega
      · intro hcond fetched2
        rcases hcond with hcase | h0 | h2
        · exact absurd hcase hop
        · exact absurd h0 (by omega)
        · exact absurd h2 (by omega)
    · have h2len : title_filters.length + url_filters.length = 2 := by
        rw [← hlen, hbf]; rfl
      have hm1 : f ∈ title_filters.map in_title_filter ++
          url_filters.map in_url_filter := by
        rw [hbf]; simp
      have hm2 : f2 ∈ title_filters.map in_title_filter ++
          url_filters.map in_url_filter := by
        rw [hbf]; simp
      have hno1 := constructed_no_filterErr hm1
      have hno2 := constructed_no_filterErr hm2
      have hnofe : resFilterErr (builtin_main fetched url_filters
          title_filters operation) = false := by
        rw [show builtin_main fetched url_filters title_filters operation =
            (if operation = "OR" then filter_feed fetched (OR_filter f f2)
             else filter_feed fetched (AND_filter f f2)) by
          unfold builtin_main; rw [if_neg hop, hbf]]
        by_cases hOR : operation = "OR"
        · rw [if_pos hOR]
          exact filter_feed_no_filterErr hf (OR_no_filterErr hno1 hno2)
        · rw [if_neg hOR]
          exact filter_feed_no_filterErr hf (AND_no_filterErr hno1 hno2)
      constructor
      · rw [hnofe]
        constructor
        · intro hc; exact absurd hc Bool.false_ne_true
        · intro hcond
          exfalso
          rcases hcond with hcase | h0 | h2
          · exact hop hcase
          · omega
          · omega
      · intro hcond fetched2
        rcases hcond with hcase | h0 | h2
        · exact absurd hcase hop
        · exact absurd h0 (by omega)
        · exact absurd h2 (by omega)
    · have h3len : title_filters.length + url_filters.length ≥ 3 := by
        rw [← hlen, hbf]
        simp only [List.length_cons]
        omega
      constructor
      · rw [show builtin_main fetched url_filters title_filters operation =
            .error (.feedFilterError
              "Too many filters given; use Regex to re-use some?") by
          unfold builtin_main; rw [if_neg hop, hbf]]
        exact ⟨fun _ => Or.inr (Or.inr (by omega)), fun _ => rfl⟩
      · intro _ fetched2
        unfold builtin_main
        rw [if_neg hop, hbf, if_neg hop]

/-- Witness for C3: one url filter but an invalid operation string;
the validation error is independent of the fetch outcome. -/
theorem builtin_main_validation_witness :
    (resFilterErr (builtin_main (.ok ⟨[], []⟩) ["x"] [] "XOR") = true ↔
      ((("XOR" : String) ≠ "OR" ∧ ("XOR" : String) ≠ "AND") ∨
        ([] : List String).length + (["x"] : List String).length = 0 ∨
        ([] : List String).length + (["x"] : List String).length > 2))
    ∧ (((("XOR" : String) ≠ "OR" ∧ ("XOR" : String) ≠ "AND") ∨
        ([] : List String).length + (["x"] : List String).length = 0 ∨
        ([] : List String).length + (["x"] : List String).length > 2) →
      ∀ fetched2 : Except PyErr Feed,
        builtin_main (.ok ⟨[], []⟩) ["x"] [] "XOR" =
          builtin_main fetched2 ["x"] [] "XOR") :=
  builtin_main_validation (.ok ⟨[], []⟩) ["x"] [] "XOR" rfl

end Rssfilter
